import Mathlib

/-!
Shallow embedding of Lighthouse's base (phase-0) epoch rewards-and-penalties
calculator (`consensus/state_processing/src/per_epoch_processing/base/
rewards_and_penalties.rs`), together with theorems checking the stated
properties of that module.

Machine integers (`u64`) are embedded as `Nat` together with explicit
checked-arithmetic operations that fail (with a typed error) whenever the
`u64` result would overflow, underflow, or divide by zero, mirroring the
checked-arithmetic discipline (`safe_arith`) the source uses throughout.
Fallible code is embedded in the `Except` monad.
-/

deriving instance DecidableEq for Except

namespace LighthouseRewards

/-- Modelled from the spec: the error taxonomy of the module — arithmetic
errors (overflow/underflow and division by zero), the table-inconsistency
error, the defensive delta-index-bounds error, and a generic beacon-state
access error used by the external balance accessors. -/
inductive Error where
  | overflow
  | divisionByZero
  | validatorStatusesInconsistent
  | deltaOutOfBounds (index : Nat)
  | beaconStateError
deriving DecidableEq

/-- The number of values of a `u64`: arithmetic results at or above this
bound overflow. -/
def U64LIMIT : Nat := 2 ^ 64

/-- Modelled from the spec: `safe_arith` checked `u64` addition — overflow
is a fatal typed error, never a silent wrap. -/
def safe_add (a b : Nat) : Except Error Nat :=
  if a + b < U64LIMIT then .ok (a + b) else .error .overflow

/-- Modelled from the spec: `safe_arith` checked `u64` subtraction —
underflow is a fatal typed error. -/
def safe_sub (a b : Nat) : Except Error Nat :=
  if b ≤ a then .ok (a - b) else .error .overflow

/-- Modelled from the spec: `safe_arith` checked `u64` multiplication. -/
def safe_mul (a b : Nat) : Except Error Nat :=
  if a * b < U64LIMIT then .ok (a * b) else .error .overflow

/-- Modelled from the spec: `safe_arith` checked `u64` truncating division —
division by zero is a fatal typed error. -/
def safe_div (a b : Nat) : Except Error Nat :=
  if b = 0 then .error .divisionByZero else .ok (a / b)

/-- Modelled from the spec: a `Delta` is a pair of non-negative accumulated
amounts (rewards, penalties). -/
structure Delta where
  rewards : Nat
  penalties : Nat
deriving DecidableEq

/-- `Delta::default()`: both fields zero. -/
def Delta.default : Delta := ⟨0, 0⟩

/-- Modelled from the spec: `Delta::reward` adds to the reward field with
overflow detection. -/
def Delta.reward (d : Delta) (amount : Nat) : Except Error Delta := do
  let r ← safe_add d.rewards amount
  .ok ⟨r, d.penalties⟩

/-- Modelled from the spec: `Delta::penalize` adds to the penalty field with
overflow detection. -/
def Delta.penalize (d : Delta) (amount : Nat) : Except Error Delta := do
  let p ← safe_add d.penalties amount
  .ok ⟨d.rewards, p⟩

/-- Modelled from the spec: `Delta::combine` merges another delta by adding
both fields with the same overflow discipline. -/
def Delta.combine (d other : Delta) : Except Error Delta := do
  let r ← safe_add d.rewards other.rewards
  let p ← safe_add d.penalties other.penalties
  .ok ⟨r, p⟩

/-- Combination of several deltas for different components of an attestation
reward (`AttestationDelta` in the source). -/
structure AttestationDelta where
  source_delta : Delta
  target_delta : Delta
  head_delta : Delta
  inclusion_delay_delta : Delta
  inactivity_penalty_delta : Delta
deriving DecidableEq

/-- `AttestationDelta::default()`: all five component deltas zero. -/
def AttestationDelta.default : AttestationDelta :=
  ⟨Delta.default, Delta.default, Delta.default, Delta.default, Delta.default⟩

/-- `AttestationDelta::flatten`: fold the five component deltas into a single
delta with `combine`, starting from the default delta, in source order. -/
def AttestationDelta.flatten (d : AttestationDelta) : Except Error Delta := do
  let r1 ← Delta.default.combine d.source_delta
  let r2 ← r1.combine d.target_delta
  let r3 ← r2.combine d.head_delta
  let r4 ← r3.combine d.inclusion_delay_delta
  let r5 ← r4.combine d.inactivity_penalty_delta
  .ok r5

/-- `ProposerRewardCalculation`: whether the proposer credits are folded into
the delta table. -/
inductive ProposerRewardCalculation where
  | Include
  | Exclude
deriving DecidableEq

/-- Modelled from the spec: the inclusion information recorded for a
previous-epoch attester — the inclusion delay (≥ 1 by upstream invariant)
and the index of the proposer that included the attestation. -/
structure InclusionInfo where
  delay : Nat
  proposer_index : Nat
deriving DecidableEq

/-- Modelled from the spec: the per-validator participation record produced
upstream and consumed read-only by the calculator. -/
structure ValidatorStatus where
  is_eligible : Bool
  is_slashed : Bool
  is_previous_epoch_attester : Bool
  is_previous_epoch_target_attester : Bool
  is_previous_epoch_head_attester : Bool
  current_epoch_effective_balance : Nat
  inclusion_info : Option InclusionInfo
deriving DecidableEq

/-- Modelled from the spec: aggregate balance sums — the total active balance
for the current epoch and the attesting balances of the previous-epoch
source/target/head sets. -/
structure TotalBalances where
  current_epoch : Nat
  previous_epoch_attesters : Nat
  previous_epoch_target_attesters : Nat
  previous_epoch_head_attesters : Nat
deriving DecidableEq

/-- The status table plus aggregate balances (`ValidatorStatuses`). -/
structure ValidatorStatuses where
  statuses : List ValidatorStatus
  total_balances : TotalBalances
deriving DecidableEq

/-- Modelled from the spec: the protocol constants the calculator reads. -/
structure ChainSpec where
  min_epochs_to_inactivity_penalty : Nat
  effective_balance_increment : Nat
  base_rewards_per_epoch : Nat
  proposer_reward_quotient : Nat
  inactivity_penalty_quotient : Nat
deriving DecidableEq

/-- Modelled from the spec: the slice of chain state the calculator reads and
(in the application step) mutates — epoch numbers, the validator-table
length, and the balance table. -/
structure BeaconState where
  current_epoch : Nat
  previous_epoch : Nat
  finalized_checkpoint_epoch : Nat
  validators_len : Nat
  balances : List Nat
deriving DecidableEq

/-- Modelled from the spec: the protocol's genesis epoch number. -/
def genesis_epoch : Nat := 0

/-- Modelled from the spec: `increase_balance` — add to one balance entry
with overflow-checked addition. -/
def increase_balance (balances : List Nat) (index amount : Nat) :
    Except Error (List Nat) :=
  match balances.get? index with
  | none => .error .beaconStateError
  | some b => do
      let nb ← safe_add b amount
      .ok (balances.set index nb)

/-- Modelled from the spec: `decrease_balance` — subtract from one balance
entry, saturating at zero (`Nat` subtraction is exactly this saturation). -/
def decrease_balance (balances : List Nat) (index amount : Nat) :
    Except Error (List Nat) :=
  match balances.get? index with
  | none => .error .beaconStateError
  | some b => .ok (balances.set index (b - amount))

/-- `get_proposer_reward`: the proposer's share of an attester's base
reward. -/
def get_proposer_reward (base_reward : Nat) (spec : ChainSpec) :
    Except Error Nat :=
  safe_div base_reward spec.proposer_reward_quotient

/-- `get_attestation_component_delta`: one of the three participation-based
deltas, for a given membership flag and aggregate attesting balance. -/
def get_attestation_component_delta
    (index_in_unslashed_attesting_indices : Bool)
    (attesting_balance : Nat) (total_balances : TotalBalances)
    (base_reward finality_delay : Nat) (spec : ChainSpec) :
    Except Error Delta :=
  let total_balance := total_balances.current_epoch
  if index_in_unslashed_attesting_indices then
    if finality_delay > spec.min_epochs_to_inactivity_penalty then
      Delta.default.reward base_reward
    else do
      let attesting_quotient ←
        safe_div attesting_balance spec.effective_balance_increment
      let reward_numerator ← safe_mul base_reward attesting_quotient
      let total_quotient ←
        safe_div total_balance spec.effective_balance_increment
      let r ← safe_div reward_numerator total_quotient
      Delta.default.reward r
  else
    Delta.default.penalize base_reward

/-- `get_source_delta`: component delta for the source-attestation set. -/
def get_source_delta (validator : ValidatorStatus)
    (base_reward : Nat) (total_balances : TotalBalances)
    (finality_delay : Nat) (spec : ChainSpec) : Except Error Delta :=
  get_attestation_component_delta
    (validator.is_previous_epoch_attester && !validator.is_slashed)
    total_balances.previous_epoch_attesters
    total_balances base_reward finality_delay spec

/-- `get_target_delta`: component delta for the target-attestation set. -/
def get_target_delta (validator : ValidatorStatus)
    (base_reward : Nat) (total_balances : TotalBalances)
    (finality_delay : Nat) (spec : ChainSpec) : Except Error Delta :=
  get_attestation_component_delta
    (validator.is_previous_epoch_target_attester && !validator.is_slashed)
    total_balances.previous_epoch_target_attesters
    total_balances base_reward finality_delay spec

/-- `get_head_delta`: component delta for the head-attestation set. -/
def get_head_delta (validator : ValidatorStatus)
    (base_reward : Nat) (total_balances : TotalBalances)
    (finality_delay : Nat) (spec : ChainSpec) : Except Error Delta :=
  get_attestation_component_delta
    (validator.is_previous_epoch_head_attester && !validator.is_slashed)
    total_balances.previous_epoch_head_attesters
    total_balances base_reward finality_delay spec

/-- `get_inclusion_delay_delta`: the attester's inclusion-delay reward and
the separate proposer credit addressed to the recorded proposer index. -/
def get_inclusion_delay_delta (validator : ValidatorStatus)
    (base_reward : Nat) (spec : ChainSpec) :
    Except Error (Delta × Option (Nat × Delta)) :=
  if validator.is_previous_epoch_attester && !validator.is_slashed then
    match validator.inclusion_info with
    | none => .error .validatorStatusesInconsistent
    | some inclusion_info => do
        let proposer_reward ← get_proposer_reward base_reward spec
        let proposer_delta ← Delta.default.reward proposer_reward
        let max_attester_reward ← safe_sub base_reward proposer_reward
        let attester_reward ← safe_div max_attester_reward inclusion_info.delay
        let delta ← Delta.default.reward attester_reward
        .ok (delta, some (inclusion_info.proposer_index, proposer_delta))
  else
    .ok (Delta.default, none)

/-- `get_inactivity_penalty_delta`: the inactivity-leak penalty, applied only
when the finality delay exceeds the threshold. -/
def get_inactivity_penalty_delta (validator : ValidatorStatus)
    (base_reward finality_delay : Nat) (spec : ChainSpec) :
    Except Error Delta :=
  if finality_delay > spec.min_epochs_to_inactivity_penalty then do
    let scaled ← safe_mul spec.base_rewards_per_epoch base_reward
    let proposer_reward ← get_proposer_reward base_reward spec
    let base_penalty ← safe_sub scaled proposer_reward
    let delta ← Delta.default.penalize base_penalty
    if validator.is_slashed || !validator.is_previous_epoch_target_attester then do
      let scaled_balance ←
        safe_mul validator.current_epoch_effective_balance finality_delay
      let extra ← safe_div scaled_balance spec.inactivity_penalty_quotient
      delta.penalize extra
    else
      .ok delta
  else
    .ok Delta.default

/-- The subset filter of `get_attestation_deltas`: a validator's own delta is
computed only when no subset is specified or its index is in the subset. -/
def include_validator_delta (maybe_validators_subset : Option (List Nat))
    (idx : Nat) : Bool :=
  match maybe_validators_subset with
  | none => true
  | some validators_subset => validators_subset.contains idx

/-- The own-record fold of one loop iteration: look up the validator's own
record (defensive bounds check) and combine the five component deltas into
it. -/
def combine_own_delta (deltas : List AttestationDelta) (index : Nat)
    (source_delta target_delta head_delta inclusion_delay_delta
      inactivity_penalty_delta : Delta) :
    Except Error (List AttestationDelta) :=
  match deltas.get? index with
  | none => .error (.deltaOutOfBounds index)
  | some delta => do
      let sd ← delta.source_delta.combine source_delta
      let td ← delta.target_delta.combine target_delta
      let hd ← delta.head_delta.combine head_delta
      let idd ← delta.inclusion_delay_delta.combine inclusion_delay_delta
      let ipd ←
        delta.inactivity_penalty_delta.combine inactivity_penalty_delta
      .ok (deltas.set index ⟨sd, td, hd, idd, ipd⟩)

/-- The proposer-credit routing of one loop iteration: when proposer rewards
are included and a credit exists, combine it into the proposer's
`inclusion_delay_delta` (subject to the subset filter). -/
def route_proposer_delta (proposer_reward : ProposerRewardCalculation)
    (maybe_validators_subset : Option (List Nat))
    (proposer_delta : Option (Nat × Delta))
    (deltas : List AttestationDelta) : Except Error (List AttestationDelta) :=
  match proposer_reward with
  | .Include =>
    match proposer_delta with
    | some pd =>
        if include_validator_delta maybe_validators_subset pd.1 then
          match deltas.get? pd.1 with
          | none => .error .validatorStatusesInconsistent
          | some delta => do
              let idd ← delta.inclusion_delay_delta.combine pd.2
              .ok (deltas.set pd.1
                ⟨delta.source_delta, delta.target_delta, delta.head_delta,
                  idd, delta.inactivity_penalty_delta⟩)
        else
          .ok deltas
    | none => .ok deltas
  | .Exclude => .ok deltas

/-- One iteration of the `get_attestation_deltas` loop, for the validator at
`index`: skip if ineligible; otherwise compute the base reward (via the
external base-reward function `f`), the inclusion-delay pair, then — if the
index passes the subset filter — fold the five components into the
validator's own record, and finally route the proposer credit when proposer
rewards are included. -/
def get_attestation_deltas_step (f : Nat → Except Error Nat)
    (spec : ChainSpec) (total_balances : TotalBalances)
    (finality_delay : Nat) (proposer_reward : ProposerRewardCalculation)
    (maybe_validators_subset : Option (List Nat))
    (deltas : List AttestationDelta) (index : Nat)
    (validator : ValidatorStatus) :
    Except Error (List AttestationDelta) :=
  if !validator.is_eligible then
    .ok deltas
  else do
    let base_reward ← f validator.current_epoch_effective_balance
    let pair ← get_inclusion_delay_delta validator base_reward spec
    let deltas1 ←
      if include_validator_delta maybe_validators_subset index then do
        let source_delta ←
          get_source_delta validator base_reward total_balances finality_delay
            spec
        let target_delta ←
          get_target_delta validator base_reward total_balances finality_delay
            spec
        let head_delta ←
          get_head_delta validator base_reward total_balances finality_delay
            spec
        let inactivity_penalty_delta ←
          get_inactivity_penalty_delta validator base_reward finality_delay
            spec
        combine_own_delta deltas index source_delta target_delta head_delta
          pair.1 inactivity_penalty_delta
      else
        .ok deltas
    route_proposer_delta proposer_reward maybe_validators_subset pair.2 deltas1

/-- The `get_attestation_deltas` loop over the status table, carrying the
running validator index and the delta table. -/
def get_attestation_deltas_loop (f : Nat → Except Error Nat)
    (spec : ChainSpec) (total_balances : TotalBalances)
    (finality_delay : Nat) (proposer_reward : ProposerRewardCalculation)
    (maybe_validators_subset : Option (List Nat)) :
    List ValidatorStatus → Nat → List AttestationDelta →
    Except Error (List AttestationDelta)
  | [], _, deltas => .ok deltas
  | validator :: rest, index, deltas => do
      let deltas1 ← get_attestation_deltas_step f spec total_balances
        finality_delay proposer_reward maybe_validators_subset deltas index
        validator
      get_attestation_deltas_loop f spec total_balances finality_delay
        proposer_reward maybe_validators_subset rest (index + 1) deltas1

/-- `get_attestation_deltas`: compute the finality delay, allocate one
default record per validator, and run the loop. The external base-reward
helper (a function of the validator's effective balance, with the
square-root-of-total-active-balance figure already fixed) is the opaque
parameter `f`. -/
def get_attestation_deltas (f : Nat → Except Error Nat)
    (state : BeaconState) (validator_statuses : ValidatorStatuses)
    (proposer_reward : ProposerRewardCalculation)
    (maybe_validators_subset : Option (List Nat)) (spec : ChainSpec) :
    Except Error (List AttestationDelta) := do
  let finality_delay ←
    safe_sub state.previous_epoch state.finalized_checkpoint_epoch
  let deltas := List.replicate state.validators_len AttestationDelta.default
  get_attestation_deltas_loop f spec validator_statuses.total_balances
    finality_delay proposer_reward maybe_validators_subset
    validator_statuses.statuses 0 deltas

/-- `get_attestation_deltas_all`: deltas for every validator. -/
def get_attestation_deltas_all (f : Nat → Except Error Nat)
    (state : BeaconState) (validator_statuses : ValidatorStatuses)
    (proposer_reward : ProposerRewardCalculation) (spec : ChainSpec) :
    Except Error (List AttestationDelta) :=
  get_attestation_deltas f state validator_statuses proposer_reward none spec

/-- `get_attestation_deltas_subset`: run the full computation with the subset
filter, then keep only the (index, delta) pairs whose index is in the
subset. -/
def get_attestation_deltas_subset (f : Nat → Except Error Nat)
    (state : BeaconState) (validator_statuses : ValidatorStatuses)
    (proposer_reward : ProposerRewardCalculation)
    (validators_subset : List Nat) (spec : ChainSpec) :
    Except Error (List (Nat × AttestationDelta)) :=
  (get_attestation_deltas f state validator_statuses proposer_reward
      (some validators_subset) spec).map
    (fun deltas =>
      deltas.enum.filter (fun p => validators_subset.contains p.1))

/-- The balance-application loop of `process_rewards_and_penalties`: flatten
each record, apply the reward with overflow-checked addition and the penalty
with saturating subtraction. -/
def apply_deltas_loop :
    List AttestationDelta → Nat → List Nat → Except Error (List Nat)
  | [], _, balances => .ok balances
  | delta :: rest, index, balances => do
      let combined_delta ← delta.flatten
      let balances1 ← increase_balance balances index combined_delta.rewards
      let balances2 ← decrease_balance balances1 index combined_delta.penalties
      apply_deltas_loop rest (index + 1) balances2

/-- `process_rewards_and_penalties`: genesis-epoch early return, table-length
consistency check, delta computation with proposer rewards included, then
balance application. -/
def process_rewards_and_penalties (f : Nat → Except Error Nat)
    (state : BeaconState) (validator_statuses : ValidatorStatuses)
    (spec : ChainSpec) : Except Error BeaconState :=
  if state.current_epoch = genesis_epoch then
    .ok state
  else if validator_statuses.statuses.length ≠ state.balances.length ∨
      validator_statuses.statuses.length ≠ state.validators_len then
    .error .validatorStatusesInconsistent
  else do
    let deltas ←
      get_attestation_deltas_all f state validator_statuses .Include spec
    let balances ← apply_deltas_loop deltas 0 state.balances
    .ok ⟨state.current_epoch, state.previous_epoch,
      state.finalized_checkpoint_epoch, state.validators_len, balances⟩

/-! ## Helper lemmas -/

@[simp] theorem ok_bind {ε α β : Type} (a : α) (g : α → Except ε β) :
    (Except.ok a >>= g) = g a := rfl

@[simp] theorem error_bind {ε α β : Type} (e : ε) (g : α → Except ε β) :
    (Except.error e >>= g : Except ε β) = Except.error e := rfl

theorem safe_add_ok {a b : Nat} (h : a + b < U64LIMIT) :
    safe_add a b = .ok (a + b) := by simp [safe_add, h]

theorem safe_sub_ok {a b : Nat} (h : b ≤ a) :
    safe_sub a b = .ok (a - b) := by simp [safe_sub, h]

theorem safe_mul_ok {a b : Nat} (h : a * b < U64LIMIT) :
    safe_mul a b = .ok (a * b) := by simp [safe_mul, h]

theorem safe_div_ok {a b : Nat} (h : b ≠ 0) :
    safe_div a b = .ok (a / b) := by simp [safe_div, h]

theorem delta_reward_ok {d : Delta} {amount : Nat}
    (h : d.rewards + amount < U64LIMIT) :
    d.reward amount = .ok ⟨d.rewards + amount, d.penalties⟩ := by
  simp [Delta.reward, safe_add_ok h]

theorem delta_penalize_ok {d : Delta} {amount : Nat}
    (h : d.penalties + amount < U64LIMIT) :
    d.penalize amount = .ok ⟨d.rewards, d.penalties + amount⟩ := by
  simp [Delta.penalize, safe_add_ok h]

/-! ## C1 -/

/-- C1: at each of the three component call sites (source/target/head) the
membership flag passed to `get_attestation_component_delta` is exactly the
raw attestation flag for that component AND not slashed, so a slashed
validator is never a member; for a member, a finality delay above the
inactivity threshold yields a reward of exactly the base reward, and a
delay at or below the threshold yields the proportional reward
`base_reward * (attesting_balance / increment) / (total_balance / increment)`
with truncating divisions in exactly that order; a non-member gets a penalty
of exactly the base reward and zero reward. -/
theorem c1_attestation_component_delta
    (validator : ValidatorStatus) (attesting_balance : Nat)
    (total_balances : TotalBalances) (base_reward finality_delay : Nat)
    (spec : ChainSpec) (m : Bool)
    (hbr : base_reward < U64LIMIT)
    (hinc : spec.effective_balance_increment ≠ 0)
    (htq : total_balances.current_epoch / spec.effective_balance_increment ≠ 0)
    (hnum : base_reward * (attesting_balance / spec.effective_balance_increment)
      < U64LIMIT) :
    (get_source_delta validator base_reward total_balances finality_delay spec
      = get_attestation_component_delta
          (validator.is_previous_epoch_attester && !validator.is_slashed)
          total_balances.previous_epoch_attesters total_balances base_reward
          finality_delay spec)
    ∧ (get_target_delta validator base_reward total_balances finality_delay spec
      = get_attestation_component_delta
          (validator.is_previous_epoch_target_attester && !validator.is_slashed)
          total_balances.previous_epoch_target_attesters total_balances
          base_reward finality_delay spec)
    ∧ (get_head_delta validator base_reward total_balances finality_delay spec
      = get_attestation_component_delta
          (validator.is_previous_epoch_head_attester && !validator.is_slashed)
          total_balances.previous_epoch_head_attesters total_balances
          base_reward finality_delay spec)
    ∧ (validator.is_slashed = true →
        (validator.is_previous_epoch_attester && !validator.is_slashed) = false
        ∧ (validator.is_previous_epoch_target_attester && !validator.is_slashed)
            = false
        ∧ (validator.is_previous_epoch_head_attester && !validator.is_slashed)
            = false)
    ∧ (m = true → finality_delay > spec.min_epochs_to_inactivity_penalty →
        get_attestation_component_delta m attesting_balance total_balances
          base_reward finality_delay spec = .ok ⟨base_reward, 0⟩)
    ∧ (m = true → ¬ finality_delay > spec.min_epochs_to_inactivity_penalty →
        get_attestation_component_delta m attesting_balance total_balances
          base_reward finality_delay spec
        = .ok ⟨base_reward * (attesting_balance / spec.effective_balance_increment)
                / (total_balances.current_epoch / spec.effective_balance_increment),
              0⟩)
    ∧ (m = false →
        get_attestation_component_delta m attesting_balance total_balances
          base_reward finality_delay spec = .ok ⟨0, base_reward⟩) := by
  refine ⟨rfl, rfl, rfl, ?_, ?_, ?_, ?_⟩
  · intro hs; simp [hs]
  · intro hm hfd
    subst hm
    simp only [get_attestation_component_delta, if_pos hfd, if_true]
    rw [delta_reward_ok (by simpa [Delta.default] using hbr)]
    simp [Delta.default]
  · intro hm hfd
    subst hm
    simp only [get_attestation_component_delta, if_neg hfd, if_true]
    rw [safe_div_ok hinc, ok_bind, safe_mul_ok hnum, ok_bind, safe_div_ok hinc,
      ok_bind, safe_div_ok htq, ok_bind]
    rw [delta_reward_ok (by
      simpa [Delta.default] using Nat.lt_of_le_of_lt (Nat.div_le_self _ _) hnum)]
    simp [Delta.default]
  · intro hm
    subst hm
    simp only [get_attestation_component_delta, Bool.false_eq_true, if_false]
    rw [delta_penalize_ok (by simpa [Delta.default] using hbr)]
    simp [Delta.default]

/-- C1 witness: a member with finality delay 0 below the threshold receives
the proportional reward, evaluated concretely. -/
theorem c1_attestation_component_delta_witness :
    get_attestation_component_delta true 32000000000
      ⟨96000000000, 32000000000, 32000000000, 32000000000⟩ 1000 0
      ⟨4, 1000000000, 4, 8, 67108864⟩ = .ok ⟨333, 0⟩ := by
  have h := c1_attestation_component_delta
    ⟨true, false, true, true, true, 32000000000, some ⟨1, 2⟩⟩ 32000000000
    ⟨96000000000, 32000000000, 32000000000, 32000000000⟩ 1000 0
    ⟨4, 1000000000, 4, 8, 67108864⟩ true (by decide) (by decide) (by decide)
    (by decide)
  exact (h.2.2.2.2.2.1 rfl (by decide)).trans (by decide)

/-! ## Shared characterizations of `get_inclusion_delay_delta` -/

/-- For an unslashed previous-epoch attester with recorded inclusion info,
`get_inclusion_delay_delta` returns the attester reward
`(B - B/Q) / delay` and the proposer credit `B/Q` addressed to the recorded
proposer index. -/
theorem inclusion_delay_delta_attester_eq
    (validator : ValidatorStatus) (base_reward d p : Nat) (spec : ChainSpec)
    (hatt : validator.is_previous_epoch_attester = true)
    (hsl : validator.is_slashed = false)
    (hinc : validator.inclusion_info = some ⟨d, p⟩)
    (hd : d ≠ 0) (hq : spec.proposer_reward_quotient ≠ 0)
    (hbr : base_reward < U64LIMIT) :
    get_inclusion_delay_delta validator base_reward spec =
      .ok (⟨(base_reward - base_reward / spec.proposer_reward_quotient) / d, 0⟩,
        some (p, ⟨base_reward / spec.proposer_reward_quotient, 0⟩)) := by
  have hple : base_reward / spec.proposer_reward_quotient ≤ base_reward :=
    Nat.div_le_self _ _
  simp only [get_inclusion_delay_delta, hatt, hsl, Bool.not_false,
    Bool.and_self, if_true, hinc]
  rw [get_proposer_reward, safe_div_ok hq, ok_bind,
    delta_reward_ok (by simpa [Delta.default] using Nat.lt_of_le_of_lt hple hbr),
    ok_bind, safe_sub_ok hple, ok_bind, safe_div_ok hd, ok_bind,
    delta_reward_ok (by
      simpa [Delta.default] using
        Nat.lt_of_le_of_lt
          (Nat.le_trans (Nat.div_le_self _ _) (Nat.sub_le _ _)) hbr)]
  simp [Delta.default]

/-- For a non-attester or slashed validator, `get_inclusion_delay_delta`
returns the zero delta and no proposer credit. -/
theorem inclusion_delay_delta_non_attester_eq
    (validator : ValidatorStatus) (base_reward : Nat) (spec : ChainSpec)
    (h : (validator.is_previous_epoch_attester && !validator.is_slashed)
      = false) :
    get_inclusion_delay_delta validator base_reward spec =
      .ok (Delta.default, none) := by
  simp [get_inclusion_delay_delta, h]

/-! ## C3 -/

/-- C3: when the finality delay is at or below the inactivity threshold the
inactivity-penalty delta is all-zero; above the threshold it is a pure
penalty of `base_rewards_per_epoch * base_reward - base_reward/Q`, with the
additional `effective_balance * finality_delay / inactivity_penalty_quotient`
exactly when the validator is slashed or is not a previous-epoch target
attester. -/
theorem c3_inactivity_penalty_delta
    (validator : ValidatorStatus) (base_reward finality_delay : Nat)
    (spec : ChainSpec)
    (hmul : spec.base_rewards_per_epoch * base_reward < U64LIMIT)
    (hq : spec.proposer_reward_quotient ≠ 0)
    (hsub : base_reward / spec.proposer_reward_quotient ≤
      spec.base_rewards_per_epoch * base_reward)
    (hipq : spec.inactivity_penalty_quotient ≠ 0)
    (hmul2 : validator.current_epoch_effective_balance * finality_delay
      < U64LIMIT)
    (htot : spec.base_rewards_per_epoch * base_reward -
        base_reward / spec.proposer_reward_quotient +
        validator.current_epoch_effective_balance * finality_delay /
          spec.inactivity_penalty_quotient < U64LIMIT) :
    (¬ finality_delay > spec.min_epochs_to_inactivity_penalty →
      get_inactivity_penalty_delta validator base_reward finality_delay spec
        = .ok ⟨0, 0⟩)
    ∧ (finality_delay > spec.min_epochs_to_inactivity_penalty →
        (validator.is_slashed || !validator.is_previous_epoch_target_attester)
          = true →
        get_inactivity_penalty_delta validator base_reward finality_delay spec
        = .ok ⟨0, spec.base_rewards_per_epoch * base_reward -
              base_reward / spec.proposer_reward_quotient +
              validator.current_epoch_effective_balance * finality_delay /
                spec.inactivity_penalty_quotient⟩)
    ∧ (finality_delay > spec.min_epochs_to_inactivity_penalty →
        (validator.is_slashed || !validator.is_previous_epoch_target_attester)
          = false →
        get_inactivity_penalty_delta validator base_reward finality_delay spec
        = .ok ⟨0, spec.base_rewards_per_epoch * base_reward -
              base_reward / spec.proposer_reward_quotient⟩) := by
  refine ⟨?_, ?_, ?_⟩
  · intro hfd
    simp [get_inactivity_penalty_delta, hfd, Delta.default]
  · intro hfd hslt
    simp only [get_inactivity_penalty_delta, if_pos hfd]
    rw [safe_mul_ok hmul, ok_bind, get_proposer_reward, safe_div_ok hq,
      ok_bind, safe_sub_ok hsub, ok_bind,
      delta_penalize_ok (by
        simpa [Delta.default] using
          Nat.lt_of_le_of_lt (Nat.sub_le _ _) hmul), ok_bind]
    simp only [hslt, if_true]
    rw [safe_mul_ok hmul2, ok_bind, safe_div_ok hipq, ok_bind,
      delta_penalize_ok (by simpa [Delta.default] using htot)]
    simp [Delta.default]
  · intro hfd hslt
    simp only [get_inactivity_penalty_delta, if_pos hfd]
    rw [safe_mul_ok hmul, ok_bind, get_proposer_reward, safe_div_ok hq,
      ok_bind, safe_sub_ok hsub, ok_bind,
      delta_penalize_ok (by
        simpa [Delta.default] using
          Nat.lt_of_le_of_lt (Nat.sub_le _ _) hmul), ok_bind]
    simp [hslt, Delta.default]

/-- C3 witness: during an inactivity leak (finality delay 5, threshold 4) a
slashed validator with effective balance 32 gwei-billions pays both penalty
parts, evaluated concretely. -/
theorem c3_inactivity_penalty_delta_witness :
    get_inactivity_penalty_delta
      ⟨true, true, false, false, false, 32000000000, none⟩ 1000 5
      ⟨4, 1000000000, 4, 8, 67108864⟩ = .ok ⟨0, 6259⟩ := by
  have h := c3_inactivity_penalty_delta
    ⟨true, true, false, false, false, 32000000000, none⟩ 1000 5
    ⟨4, 1000000000, 4, 8, 67108864⟩ (by decide) (by decide) (by decide)
    (by decide) (by decide) (by decide)
  exact (h.2.1 (by decide) (by decide)).trans (by decide)

/-! ## C5 -/

/-- C5: at the genesis epoch `process_rewards_and_penalties` returns the
input state unchanged — success with no delta computation and an identical
balance table. -/
theorem c5_genesis_epoch_no_mutation (f : Nat → Except Error Nat)
    (state : BeaconState) (validator_statuses : ValidatorStatuses)
    (spec : ChainSpec) (h : state.current_epoch = genesis_epoch) :
    process_rewards_and_penalties f state validator_statuses spec
      = .ok state := by
  simp [process_rewards_and_penalties, h]

/-- C5 witness: a concrete genesis-epoch state with mismatched tables and a
nonempty balance table is returned unchanged. -/
theorem c5_genesis_epoch_no_mutation_witness :
    process_rewards_and_penalties (fun _ => .ok 0)
      ⟨genesis_epoch, 0, 0, 1, [7]⟩ ⟨[], ⟨1, 1, 1, 1⟩⟩ ⟨0, 1, 1, 1, 1⟩
      = .ok ⟨genesis_epoch, 0, 0, 1, [7]⟩ :=
  c5_genesis_epoch_no_mutation (fun _ => .ok 0)
    ⟨genesis_epoch, 0, 0, 1, [7]⟩ ⟨[], ⟨1, 1, 1, 1⟩⟩ ⟨0, 1, 1, 1, 1⟩ rfl

/-! ## C6 -/

/-- C6 counterexample: at the genesis epoch the early return fires before the
length check, so a state whose status-table length (0) differs from its
balance-table length (1) still returns success, not the inconsistency
error — the claim as stated (for every mismatched input) is false. -/
theorem c6_counterexample :
    (⟨[], ⟨1, 1, 1, 1⟩⟩ : ValidatorStatuses).statuses.length ≠
      (⟨genesis_epoch, 0, 0, 1, [7]⟩ : BeaconState).balances.length
    ∧ process_rewards_and_penalties (fun _ => .ok 0)
        ⟨genesis_epoch, 0, 0, 1, [7]⟩ ⟨[], ⟨1, 1, 1, 1⟩⟩ ⟨0, 1, 1, 1, 1⟩
      ≠ .error .validatorStatusesInconsistent := by decide

/-- C6 (amended): for every input whose current epoch is not the genesis
epoch, a status table whose length differs from the balance table's or the
validator table's length makes `process_rewards_and_penalties` return the
`ValidatorStatusesInconsistent` error before any delta computation, leaving
the balance table untouched (the error return carries no mutated state). -/
theorem c6_length_mismatch_error (f : Nat → Except Error Nat)
    (state : BeaconState) (validator_statuses : ValidatorStatuses)
    (spec : ChainSpec) (hg : state.current_epoch ≠ genesis_epoch)
    (hl : validator_statuses.statuses.length ≠ state.balances.length ∨
      validator_statuses.statuses.length ≠ state.validators_len) :
    process_rewards_and_penalties f state validator_statuses spec
      = .error .validatorStatusesInconsistent := by
  simp [process_rewards_and_penalties, hg, hl]

/-- C6 witness: a non-genesis state with one balance entry but an empty
status table yields the inconsistency error. -/
theorem c6_length_mismatch_error_witness :
    process_rewards_and_penalties (fun _ => .ok 0) ⟨1, 0, 0, 1, [7]⟩
      ⟨[], ⟨1, 1, 1, 1⟩⟩ ⟨0, 1, 1, 1, 1⟩
      = .error .validatorStatusesInconsistent :=
  c6_length_mismatch_error (fun _ => .ok 0) ⟨1, 0, 0, 1, [7]⟩
    ⟨[], ⟨1, 1, 1, 1⟩⟩ ⟨0, 1, 1, 1, 1⟩ (by decide) (Or.inl (by decide))

/-! ## C9 -/

/-- C9: for a qualifying attester the inclusion-delay reward
`(B - B/Q) / d` plus the routed proposer credit `B/Q` never exceeds `B`,
and at `B = 1000`, `Q = 8`, `d = 1` the computed proposer credit is exactly
125 and the attester reward exactly 875. -/
theorem c9_inclusion_delay_reward_conservation
    (validator : ValidatorStatus) (base_reward d p : Nat) (spec : ChainSpec)
    (hatt : validator.is_previous_epoch_attester = true)
    (hsl : validator.is_slashed = false)
    (hinc : validator.inclusion_info = some ⟨d, p⟩)
    (hd : d ≠ 0) (hq : spec.proposer_reward_quotient ≠ 0)
    (hbr : base_reward < U64LIMIT) :
    get_inclusion_delay_delta validator base_reward spec =
      .ok (⟨(base_reward - base_reward / spec.proposer_reward_quotient) / d, 0⟩,
        some (p, ⟨base_reward / spec.proposer_reward_quotient, 0⟩))
    ∧ (base_reward - base_reward / spec.proposer_reward_quotient) / d +
        base_reward / spec.proposer_reward_quotient ≤ base_reward
    ∧ get_inclusion_delay_delta
        ⟨true, false, true, true, true, 32000000000, some ⟨1, 2⟩⟩ 1000
        ⟨4, 1000000000, 4, 8, 67108864⟩
      = .ok (⟨875, 0⟩, some (2, ⟨125, 0⟩)) := by
  refine ⟨inclusion_delay_delta_attester_eq validator base_reward d p spec
    hatt hsl hinc hd hq hbr, ?_, by decide⟩
  have h1 : (base_reward - base_reward / spec.proposer_reward_quotient) / d ≤
      base_reward - base_reward / spec.proposer_reward_quotient :=
    Nat.div_le_self _ _
  have h2 : base_reward / spec.proposer_reward_quotient ≤ base_reward :=
    Nat.div_le_self _ _
  omega

/-- C9 witness: the conservation bound instantiated at `B = 1000`, `Q = 8`,
`d = 1`, together with the concrete computed outputs. -/
theorem c9_inclusion_delay_reward_conservation_witness :
    get_inclusion_delay_delta
      ⟨true, false, true, true, true, 32000000000, some ⟨1, 2⟩⟩ 1000
      ⟨4, 1000000000, 4, 8, 67108864⟩
      = .ok (⟨875, 0⟩, some (2, ⟨125, 0⟩))
    ∧ (1000 - 1000 / 8) / 1 + 1000 / 8 ≤ 1000 := by
  have h := c9_inclusion_delay_reward_conservation
    ⟨true, false, true, true, true, 32000000000, some ⟨1, 2⟩⟩ 1000 1 2
    ⟨4, 1000000000, 4, 8, 67108864⟩ rfl rfl rfl (by decide) (by decide)
    (by decide)
  exact ⟨h.2.2, h.2.1⟩

/-! ## C10 -/

/-- C10: a previous-epoch unslashed attester whose recorded inclusion delay
is zero makes `get_inclusion_delay_delta` return the typed division-by-zero
arithmetic error, and the error propagates out of the whole epoch delta
computation (shown on a concrete one-validator state). -/
theorem c10_zero_inclusion_delay_division_error
    (validator : ValidatorStatus) (base_reward p : Nat) (spec : ChainSpec)
    (hatt : validator.is_previous_epoch_attester = true)
    (hsl : validator.is_slashed = false)
    (hinc : validator.inclusion_info = some ⟨0, p⟩)
    (hq : spec.proposer_reward_quotient ≠ 0)
    (hbr : base_reward < U64LIMIT) :
    get_inclusion_delay_delta validator base_reward spec
      = .error .divisionByZero
    ∧ get_attestation_deltas_all (fun _ => .ok 1000) ⟨1, 0, 0, 1, [0]⟩
        ⟨[⟨true, false, true, true, true, 32000000000, some ⟨0, 5⟩⟩],
          ⟨96000000000, 32000000000, 32000000000, 32000000000⟩⟩
        .Include ⟨4, 1000000000, 4, 8, 67108864⟩
      = .error .divisionByZero := by
  have hple : base_reward / spec.proposer_reward_quotient ≤ base_reward :=
    Nat.div_le_self _ _
  refine ⟨?_, by decide⟩
  simp only [get_inclusion_delay_delta, hatt, hsl, Bool.not_false,
    Bool.and_self, if_true, hinc]
  rw [get_proposer_reward, safe_div_ok hq, ok_bind,
    delta_reward_ok (by simpa [Delta.default] using Nat.lt_of_le_of_lt hple hbr),
    ok_bind, safe_sub_ok hple, ok_bind]
  simp [safe_div]

/-- C10 witness: the division-by-zero error at a concrete attester status
with inclusion delay 0. -/
theorem c10_zero_inclusion_delay_division_error_witness :
    get_inclusion_delay_delta
      ⟨true, false, true, true, true, 32000000000, some ⟨0, 5⟩⟩ 1000
      ⟨4, 1000000000, 4, 8, 67108864⟩ = .error .divisionByZero :=
  (c10_zero_inclusion_delay_division_error
    ⟨true, false, true, true, true, 32000000000, some ⟨0, 5⟩⟩ 1000 5
    ⟨4, 1000000000, 4, 8, 67108864⟩ rfl rfl rfl (by decide) (by decide)).1

/-! ## C7 -/

theorem lt_length_of_get? {α : Type} {l : List α} {n : Nat} {a : α}
    (h : l.get? n = some a) : n < l.length := by
  by_contra hlt
  rw [List.get?_eq_none.mpr (by omega)] at h
  cases h

/-- The rewards-total of an `AttestationDelta`, in source summation order. -/
def AttestationDelta.rewards_total (d : AttestationDelta) : Nat :=
  d.source_delta.rewards + d.target_delta.rewards + d.head_delta.rewards +
    d.inclusion_delay_delta.rewards + d.inactivity_penalty_delta.rewards

/-- The penalties-total of an `AttestationDelta`. -/
def AttestationDelta.penalties_total (d : AttestationDelta) : Nat :=
  d.source_delta.penalties + d.target_delta.penalties +
    d.head_delta.penalties + d.inclusion_delay_delta.penalties +
    d.inactivity_penalty_delta.penalties

/-- `combine` adds both fields when neither addition overflows. -/
theorem delta_combine_ok {a b : Delta}
    (h1 : a.rewards + b.rewards < U64LIMIT)
    (h2 : a.penalties + b.penalties < U64LIMIT) :
    a.combine b = .ok ⟨a.rewards + b.rewards, a.penalties + b.penalties⟩ := by
  rw [Delta.combine, safe_add_ok h1, ok_bind, safe_add_ok h2, ok_bind]

/-- `combine` fails with the typed overflow error when either addition
overflows. -/
theorem delta_combine_overflow {a b : Delta}
    (h : ¬(a.rewards + b.rewards < U64LIMIT ∧
      a.penalties + b.penalties < U64LIMIT)) :
    a.combine b = .error .overflow := by
  rw [Delta.combine]
  by_cases h1 : a.rewards + b.rewards < U64LIMIT
  · have h2 : ¬ a.penalties + b.penalties < U64LIMIT := by tauto
    rw [safe_add_ok h1, ok_bind, safe_add, if_neg h2]
    rfl
  · rw [safe_add, if_neg h1]
    rfl

/-- `flatten` sums the five fields when neither total overflows, and
propagates the typed overflow error otherwise — never a silent wrap. -/
theorem flatten_eq (d : AttestationDelta) :
    d.flatten =
      if d.rewards_total < U64LIMIT ∧ d.penalties_total < U64LIMIT then
        .ok ⟨d.rewards_total, d.penalties_total⟩
      else
        .error .overflow := by
  obtain ⟨⟨sr, sp⟩, ⟨tr, tp⟩, ⟨hr, hp⟩, ⟨ir, ip⟩, ⟨nr, np⟩⟩ := d
  simp only [AttestationDelta.rewards_total, AttestationDelta.penalties_total,
    AttestationDelta.flatten]
  by_cases c1 : (0 : Nat) + sr < U64LIMIT ∧ (0 : Nat) + sp < U64LIMIT
  case neg =>
    rw [delta_combine_overflow c1]
    rw [error_bind, if_neg (by omega)]
  case pos =>
  rw [delta_combine_ok c1.1 c1.2, ok_bind]
  by_cases c2 : (0 : Nat) + sr + tr < U64LIMIT ∧ (0 : Nat) + sp + tp < U64LIMIT
  case neg =>
    rw [delta_combine_overflow c2]
    rw [error_bind, if_neg (by omega)]
  case pos =>
  rw [delta_combine_ok c2.1 c2.2, ok_bind]
  by_cases c3 : (0 : Nat) + sr + tr + hr < U64LIMIT ∧
    (0 : Nat) + sp + tp + hp < U64LIMIT
  case neg =>
    rw [delta_combine_overflow c3]
    rw [error_bind, if_neg (by omega)]
  case pos =>
  rw [delta_combine_ok c3.1 c3.2, ok_bind]
  by_cases c4 : (0 : Nat) + sr + tr + hr + ir < U64LIMIT ∧
    (0 : Nat) + sp + tp + hp + ip < U64LIMIT
  case neg =>
    rw [delta_combine_overflow c4]
    rw [error_bind, if_neg (by omega)]
  case pos =>
  rw [delta_combine_ok c4.1 c4.2, ok_bind]
  by_cases c5 : (0 : Nat) + sr + tr + hr + ir + nr < U64LIMIT ∧
    (0 : Nat) + sp + tp + hp + ip + np < U64LIMIT
  case neg =>
    rw [delta_combine_overflow c5]
    rw [error_bind, if_neg (by omega)]
  case pos =>
  rw [delta_combine_ok c5.1 c5.2, ok_bind]
  rw [if_pos (by constructor <;> omega)]
  simp [Delta.default]

/-- C7: flattening an `AttestationDelta` sums the five fields with
overflow-checked addition (overflow is a typed propagated error, never a
wrap); the application step then adds the summed rewards to the balance with
overflow-checked addition and subtracts the summed penalties with the
saturating `Nat` subtraction, which never errors on an in-range index — so
absent overflow the new balance is `max((old + rewards) - penalties, 0)`. -/
theorem c7_flatten_and_apply (d : AttestationDelta) (balances : List Nat)
    (index b : Nat)
    (hget : balances.get? index = some b) :
    (d.rewards_total < U64LIMIT → d.penalties_total < U64LIMIT →
      d.flatten = .ok ⟨d.rewards_total, d.penalties_total⟩)
    ∧ (d.rewards_total ≥ U64LIMIT ∨ d.penalties_total ≥ U64LIMIT →
      d.flatten = .error .overflow)
    ∧ (∀ rewards penalties : Nat, b + rewards < U64LIMIT →
      (do
        let balances1 ← increase_balance balances index rewards
        decrease_balance balances1 index penalties)
      = .ok (balances.set index (b + rewards - penalties)))
    ∧ (∀ rewards penalties : Nat,
        (b + rewards - penalties : Nat)
          = Int.toNat ((b : Int) + (rewards : Int) - (penalties : Int)))
    ∧ (∀ penalties : Nat,
        decrease_balance balances index penalties
          = .ok (balances.set index (b - penalties))) := by
  have hlt : index < balances.length := lt_length_of_get? hget
  refine ⟨?_, ?_, ?_, ?_, ?_⟩
  · intro h1 h2
    rw [flatten_eq, if_pos ⟨h1, h2⟩]
  · intro h
    rw [flatten_eq, if_neg (by omega)]
  · intro rewards penalties hru
    simp only [increase_balance, hget, safe_add_ok hru, ok_bind,
      decrease_balance, List.get?_set_eq_of_lt _ hlt, List.set_set]
  · intro rewards penalties
    omega
  · intro penalties
    simp only [decrease_balance, hget]

/-- C7 witness: a record rewarding 10 on source and penalizing 25 on
inactivity flattens to `(10, 25)`, and applying it to a balance of 7 yields
`max(7 + 10 - 25, 0) = 0`. -/
theorem c7_flatten_and_apply_witness :
    (⟨⟨10, 0⟩, Delta.default, Delta.default, Delta.default, ⟨0, 25⟩⟩ :
        AttestationDelta).flatten = .ok ⟨10, 25⟩
    ∧ (do
        let balances1 ← increase_balance [7] 0 10
        decrease_balance balances1 0 25) = .ok [0] := by
  have h := c7_flatten_and_apply
    ⟨⟨10, 0⟩, Delta.default, Delta.default, Delta.default, ⟨0, 25⟩⟩ [7] 0 7
    rfl
  refine ⟨(h.1 (by decide) (by decide)).trans (by decide), ?_⟩
  exact (h.2.2.1 10 25 (by decide)).trans (by decide)

/-! ## C2 -/

/-- Inversion for a successful `combine`: the result adds both fields. -/
theorem delta_combine_eq_ok {a b c : Delta} (h : a.combine b = .ok c) :
    c = ⟨a.rewards + b.rewards, a.penalties + b.penalties⟩ := by
  by_cases hb : a.rewards + b.rewards < U64LIMIT ∧
      a.penalties + b.penalties < U64LIMIT
  · rw [delta_combine_ok hb.1 hb.2] at h
    exact (Except.ok.inj h).symm
  · rw [delta_combine_overflow hb] at h
    cases h

/-- C2: an unslashed previous-epoch attester receives the inclusion-delay
reward `(B - B/Q) / delay` with zero penalty together with a proposer credit
of exactly `B/Q` addressed to the recorded proposer index; any other
validator yields the zero delta and no credit; and in the orchestration loop
with proposer rewards included, that credit is combined into the proposer's
own `inclusion_delay_delta` field even when the proposer is a different
validator than the one being iterated (its status is arbitrary — it need not
have attested). -/
theorem c2_inclusion_delay_delta_and_routing
    (validator : ValidatorStatus) (base_reward d p : Nat) (spec : ChainSpec)
    (hq : spec.proposer_reward_quotient ≠ 0)
    (hbr : base_reward < U64LIMIT) :
    (validator.is_previous_epoch_attester = true →
      validator.is_slashed = false →
      validator.inclusion_info = some ⟨d, p⟩ → d ≠ 0 →
      get_inclusion_delay_delta validator base_reward spec =
        .ok (⟨(base_reward - base_reward / spec.proposer_reward_quotient) / d,
            0⟩,
          some (p, ⟨base_reward / spec.proposer_reward_quotient, 0⟩)))
    ∧ ((validator.is_previous_epoch_attester && !validator.is_slashed) = false →
      get_inclusion_delay_delta validator base_reward spec =
        .ok (Delta.default, none))
    ∧ (∀ (f : Nat → Except Error Nat) (total_balances : TotalBalances)
        (finality_delay index : Nat) (deltas deltas2 : List AttestationDelta),
        validator.is_eligible = true →
        validator.is_previous_epoch_attester = true →
        validator.is_slashed = false →
        validator.inclusion_info = some ⟨d, p⟩ → d ≠ 0 →
        f validator.current_epoch_effective_balance = .ok base_reward →
        p ≠ index →
        get_attestation_deltas_step f spec total_balances finality_delay
          .Include none deltas index validator = .ok deltas2 →
        ∃ old new, deltas.get? p = some old ∧ deltas2.get? p = some new ∧
          new.inclusion_delay_delta.rewards =
            old.inclusion_delay_delta.rewards +
              base_reward / spec.proposer_reward_quotient ∧
          new.inclusion_delay_delta.penalties =
            old.inclusion_delay_delta.penalties ∧
          new.source_delta = old.source_delta ∧
          new.target_delta = old.target_delta ∧
          new.head_delta = old.head_delta ∧
          new.inactivity_penalty_delta = old.inactivity_penalty_delta) := by
  refine ⟨?_, ?_, ?_⟩
  · intro hatt hsl hinc hd
    exact inclusion_delay_delta_attester_eq validator base_reward d p spec
      hatt hsl hinc hd hq hbr
  · intro h
    exact inclusion_delay_delta_non_attester_eq validator base_reward spec h
  · intro f total_balances finality_delay index deltas deltas2 heli hatt hsl
      hinc hd hf hp hstep
    simp only [get_attestation_deltas_step, combine_own_delta,
      route_proposer_delta, heli, Bool.not_true,
      Bool.false_eq_true, if_false, hf, ok_bind,
      inclusion_delay_delta_attester_eq validator base_reward d p spec hatt
        hsl hinc hd hq hbr,
      include_validator_delta, if_true] at hstep
    rcases hsrc : get_source_delta validator base_reward total_balances
        finality_delay spec with e | source_delta
    · simp only [hsrc, error_bind] at hstep
      exact Except.noConfusion hstep
    simp only [hsrc, ok_bind] at hstep
    rcases htgt : get_target_delta validator base_reward total_balances
        finality_delay spec with e | target_delta
    · simp only [htgt, error_bind] at hstep
      exact Except.noConfusion hstep
    simp only [htgt, ok_bind] at hstep
    rcases hhd : get_head_delta validator base_reward total_balances
        finality_delay spec with e | head_delta
    · simp only [hhd, error_bind] at hstep
      exact Except.noConfusion hstep
    simp only [hhd, ok_bind] at hstep
    rcases hip : get_inactivity_penalty_delta validator base_reward
        finality_delay spec with e | inactivity_penalty_delta
    · simp only [hip, error_bind] at hstep
      exact Except.noConfusion hstep
    simp only [hip, ok_bind] at hstep
    rcases hgi : deltas.get? index with _ | dl
    · simp only [hgi, error_bind] at hstep
      exact Except.noConfusion hstep
    simp only [hgi] at hstep
    rcases hc1 : dl.source_delta.combine source_delta with e | sd
    · simp only [hc1, error_bind] at hstep
      exact Except.noConfusion hstep
    simp only [hc1, ok_bind] at hstep
    rcases hc2 : dl.target_delta.combine target_delta with e | td
    · simp only [hc2, error_bind] at hstep
      exact Except.noConfusion hstep
    simp only [hc2, ok_bind] at hstep
    rcases hc3 : dl.head_delta.combine head_delta with e | hd2
    · simp only [hc3, error_bind] at hstep
      exact Except.noConfusion hstep
    simp only [hc3, ok_bind] at hstep
    rcases hc4 : dl.inclusion_delay_delta.combine
        ⟨(base_reward - base_reward / spec.proposer_reward_quotient) / d, 0⟩
        with e | idd
    · simp only [hc4, error_bind] at hstep
      exact Except.noConfusion hstep
    simp only [hc4, ok_bind] at hstep
    rcases hc5 : dl.inactivity_penalty_delta.combine inactivity_penalty_delta
        with e | ipd
    · simp only [hc5, error_bind] at hstep
      exact Except.noConfusion hstep
    simp only [hc5, ok_bind] at hstep
    rw [List.get?_set_ne _ _ (fun he => hp he.symm)] at hstep
    rcases hop : deltas.get? p with _ | old
    · simp only [hop, error_bind] at hstep
      exact Except.noConfusion hstep
    simp only [hop] at hstep
    rcases hc6 : old.inclusion_delay_delta.combine
        ⟨base_reward / spec.proposer_reward_quotient, 0⟩ with e | newidd
    · simp only [hc6, error_bind] at hstep
      exact Except.noConfusion hstep
    simp only [hc6, ok_bind] at hstep
    have hplen : p < deltas.length := lt_length_of_get? hop
    have hd2eq := Except.ok.inj hstep
    refine ⟨old, ⟨old.source_delta, old.target_delta, old.head_delta, newidd,
      old.inactivity_penalty_delta⟩, rfl, ?_, ?_, ?_, rfl, rfl, rfl, rfl⟩
    · rw [← hd2eq]
      exact List.get?_set_eq_of_lt _ (by simp [hplen])
    · simp [delta_combine_eq_ok hc6]
    · simp [delta_combine_eq_ok hc6]

/-- C2 witness: validator 0 (an unslashed attester with inclusion delay 1
and recorded proposer 2) is processed by the loop step; validator 2, which
did not attest, receives exactly the 125-gwei proposer credit in its
`inclusion_delay_delta`. -/
theorem c2_inclusion_delay_delta_and_routing_witness :
    ∃ old new,
      (List.replicate 3 AttestationDelta.default).get? 2 = some old ∧
      ([⟨⟨333, 0⟩, ⟨333, 0⟩, ⟨333, 0⟩, ⟨875, 0⟩, ⟨0, 0⟩⟩,
        AttestationDelta.default,
        ⟨⟨0, 0⟩, ⟨0, 0⟩, ⟨0, 0⟩, ⟨125, 0⟩, ⟨0, 0⟩⟩] :
          List AttestationDelta).get? 2 = some new ∧
      new.inclusion_delay_delta.rewards =
        old.inclusion_delay_delta.rewards + 1000 / 8 ∧
      new.inclusion_delay_delta.penalties =
        old.inclusion_delay_delta.penalties ∧
      new.source_delta = old.source_delta ∧
      new.target_delta = old.target_delta ∧
      new.head_delta = old.head_delta ∧
      new.inactivity_penalty_delta = old.inactivity_penalty_delta :=
  (c2_inclusion_delay_delta_and_routing
    ⟨true, false, true, true, true, 32000000000, some ⟨1, 2⟩⟩ 1000 1 2
    ⟨4, 1000000000, 4, 8, 67108864⟩ (by decide) (by decide)).2.2
    (fun _ => .ok 1000) ⟨96000000000, 32000000000, 32000000000, 32000000000⟩
    0 0 (List.replicate 3 AttestationDelta.default)
    [⟨⟨333, 0⟩, ⟨333, 0⟩, ⟨333, 0⟩, ⟨875, 0⟩, ⟨0, 0⟩⟩,
      AttestationDelta.default,
      ⟨⟨0, 0⟩, ⟨0, 0⟩, ⟨0, 0⟩, ⟨125, 0⟩, ⟨0, 0⟩⟩]
    rfl rfl rfl rfl (by decide) rfl (by decide) (by decide)

/-! ## C4: subset queries refine the full computation -/

/-- Agreement of two delta tables on every index of the subset `s`. -/
def subset_agree (s : List Nat) (D D2 : List AttestationDelta) : Prop :=
  D.length = D2.length ∧ ∀ j, s.contains j = true → D2.get? j = D.get? j

theorem subset_agree_refl (s : List Nat) (D : List AttestationDelta) :
    subset_agree s D D := ⟨rfl, fun _ _ => rfl⟩

theorem subset_agree_set_both {s : List Nat} {D D2 : List AttestationDelta}
    (hrel : subset_agree s D D2) (i : Nat) (X : AttestationDelta) :
    subset_agree s (D.set i X) (D2.set i X) := by
  refine ⟨by simp [hrel.1], fun j hj => ?_⟩
  by_cases hij : i = j
  · subst hij
    rw [List.get?_set_eq, List.get?_set_eq, hrel.2 i hj]
  · rw [List.get?_set_ne _ _ hij, List.get?_set_ne _ _ hij]
    exact hrel.2 j hj

theorem subset_agree_set_left {s : List Nat} {D D2 : List AttestationDelta}
    (hrel : subset_agree s D D2) {i : Nat} (hnin : s.contains i = false)
    (X : AttestationDelta) : subset_agree s (D.set i X) D2 := by
  refine ⟨by simp [hrel.1], fun j hj => ?_⟩
  have hij : i ≠ j := fun he => by rw [he, hj] at hnin; cases hnin
  rw [List.get?_set_ne _ _ hij]
  exact hrel.2 j hj

/-- Inversion of a successful own-record fold. -/
theorem combine_own_delta_ok_inv {deltas E : List AttestationDelta}
    {index : Nat} {a b c d2 e : Delta}
    (h : combine_own_delta deltas index a b c d2 e = .ok E) :
    ∃ dl sd td hd idd ipd, deltas.get? index = some dl ∧
      dl.source_delta.combine a = .ok sd ∧
      dl.target_delta.combine b = .ok td ∧
      dl.head_delta.combine c = .ok hd ∧
      dl.inclusion_delay_delta.combine d2 = .ok idd ∧
      dl.inactivity_penalty_delta.combine e = .ok ipd ∧
      E = deltas.set index ⟨sd, td, hd, idd, ipd⟩ := by
  rcases hgi : deltas.get? index with _ | dl
  · simp only [combine_own_delta, hgi] at h
    exact Except.noConfusion h
  simp only [combine_own_delta, hgi] at h
  rcases h1 : dl.source_delta.combine a with e1 | sd
  · simp only [h1, error_bind] at h
    exact Except.noConfusion h
  simp only [h1, ok_bind] at h
  rcases h2 : dl.target_delta.combine b with e1 | td
  · simp only [h2, error_bind] at h
    exact Except.noConfusion h
  simp only [h2, ok_bind] at h
  rcases h3 : dl.head_delta.combine c with e1 | hd
  · simp only [h3, error_bind] at h
    exact Except.noConfusion h
  simp only [h3, ok_bind] at h
  rcases h4 : dl.inclusion_delay_delta.combine d2 with e1 | idd
  · simp only [h4, error_bind] at h
    exact Except.noConfusion h
  simp only [h4, ok_bind] at h
  rcases h5 : dl.inactivity_penalty_delta.combine e with e1 | ipd
  · simp only [h5, error_bind] at h
    exact Except.noConfusion h
  simp only [h5, ok_bind] at h
  exact ⟨dl, sd, td, hd, idd, ipd, rfl, h1, h2, h3, h4, h5,
    (Except.ok.inj h).symm⟩

/-- Forward computation of a successful own-record fold. -/
theorem combine_own_delta_ok {deltas : List AttestationDelta} {index : Nat}
    {dl : AttestationDelta} {a b c d2 e sd td hd idd ipd : Delta}
    (hgi : deltas.get? index = some dl)
    (h1 : dl.source_delta.combine a = .ok sd)
    (h2 : dl.target_delta.combine b = .ok td)
    (h3 : dl.head_delta.combine c = .ok hd)
    (h4 : dl.inclusion_delay_delta.combine d2 = .ok idd)
    (h5 : dl.inactivity_penalty_delta.combine e = .ok ipd) :
    combine_own_delta deltas index a b c d2 e =
      .ok (deltas.set index ⟨sd, td, hd, idd, ipd⟩) := by
  simp only [combine_own_delta, hgi, h1, ok_bind, h2, h3, h4, h5]

/-- Simulation of the proposer-credit routing: a successful unfiltered
routing is matched by the subset-filtered routing on an agreeing table. -/
theorem route_proposer_subset {pr : ProposerRewardCalculation} {s : List Nat}
    {pd : Option (Nat × Delta)} {D1 D1S E : List AttestationDelta}
    (hrel : subset_agree s D1 D1S)
    (h : route_proposer_delta pr none pd D1 = .ok E) :
    ∃ E2, route_proposer_delta pr (some s) pd D1S = .ok E2 ∧
      subset_agree s E E2 := by
  cases pr with
  | Exclude => exact ⟨D1S, rfl, (Except.ok.inj h) ▸ hrel⟩
  | Include =>
    cases pd with
    | none => exact ⟨D1S, rfl, (Except.ok.inj h) ▸ hrel⟩
    | some qpd =>
        obtain ⟨q, pdd⟩ := qpd
        simp only [route_proposer_delta, include_validator_delta, if_true]
          at h
        rcases hq : D1.get? q with _ | dq
        · simp only [hq] at h
          exact Except.noConfusion h
        simp only [hq] at h
        rcases hc : dq.inclusion_delay_delta.combine pdd with e | idd
        · simp only [hc, error_bind] at h
          exact Except.noConfusion h
        simp only [hc, ok_bind] at h
        have hE := Except.ok.inj h
        by_cases hin : s.contains q = true
        · have hq2 : D1S.get? q = some dq := (hrel.2 q hin).trans hq
          refine ⟨D1S.set q ⟨dq.source_delta, dq.target_delta, dq.head_delta,
            idd, dq.inactivity_penalty_delta⟩, ?_, ?_⟩
          · simp only [route_proposer_delta, include_validator_delta, hin,
              if_true, hq2, hc, ok_bind]
          · rw [← hE]
            exact subset_agree_set_both hrel q _
        · have hnin : s.contains q = false := by simpa using hin
          refine ⟨D1S, ?_, ?_⟩
          · simp only [route_proposer_delta, include_validator_delta, hnin,
              Bool.false_eq_true, if_false]
          · rw [← hE]
            exact subset_agree_set_left hrel hnin _

/-- Simulation of one loop step: a successful unfiltered step is matched by
the subset-filtered step on an agreeing table, and agreement on the subset
is preserved. -/
theorem step_subset_rel (f : Nat → Except Error Nat) (spec : ChainSpec)
    (total_balances : TotalBalances) (finality_delay : Nat)
    (proposer_reward : ProposerRewardCalculation) (s : List Nat)
    (deltas deltas2 E : List AttestationDelta) (index : Nat)
    (validator : ValidatorStatus)
    (hrel : subset_agree s deltas deltas2)
    (hstep : get_attestation_deltas_step f spec total_balances finality_delay
      proposer_reward none deltas index validator = .ok E) :
    ∃ E2, get_attestation_deltas_step f spec total_balances finality_delay
      proposer_reward (some s) deltas2 index validator = .ok E2 ∧
      subset_agree s E E2 := by
  cases heli : validator.is_eligible with
  | false =>
      simp only [get_attestation_deltas_step, heli, Bool.not_false, if_true]
        at hstep ⊢
      exact ⟨deltas2, rfl, (Except.ok.inj hstep) ▸ hrel⟩
  | true =>
      simp only [get_attestation_deltas_step, heli, Bool.not_true,
        Bool.false_eq_true, if_false] at hstep ⊢
      rcases hbase : f validator.current_epoch_effective_balance
          with e | base_reward
      · simp only [hbase, error_bind] at hstep
        exact Except.noConfusion hstep
      simp only [hbase, ok_bind] at hstep ⊢
      rcases hpair : get_inclusion_delay_delta validator base_reward spec
          with e | pair
      · simp only [hpair, error_bind] at hstep
        exact Except.noConfusion hstep
      simp only [hpair, ok_bind] at hstep ⊢
      simp only [include_validator_delta, if_true] at hstep
      rcases hsrc : get_source_delta validator base_reward total_balances
          finality_delay spec with e | source_delta
      · simp only [hsrc, error_bind] at hstep
        exact Except.noConfusion hstep
      simp only [hsrc, ok_bind] at hstep
      rcases htgt : get_target_delta validator base_reward total_balances
          finality_delay spec with e | target_delta
      · simp only [htgt, error_bind] at hstep
        exact Except.noConfusion hstep
      simp only [htgt, ok_bind] at hstep
      rcases hhd : get_head_delta validator base_reward total_balances
          finality_delay spec with e | head_delta
      · simp only [hhd, error_bind] at hstep
        exact Except.noConfusion hstep
      simp only [hhd, ok_bind] at hstep
      rcases hip : get_inactivity_penalty_delta validator base_reward
          finality_delay spec with e | inactivity_penalty_delta
      · simp only [hip, error_bind] at hstep
        exact Except.noConfusion hstep
      simp only [hip, ok_bind] at hstep
      rcases hown : combine_own_delta deltas index source_delta target_delta
          head_delta pair.1 inactivity_penalty_delta with e | D1
      · simp only [hown, error_bind] at hstep
        exact Except.noConfusion hstep
      simp only [hown, ok_bind] at hstep
      obtain ⟨dl, sd, td, hd, idd, ipd, hgi, h1, h2, h3, h4, h5, hD1⟩ :=
        combine_own_delta_ok_inv hown
      subst hD1
      by_cases hin : s.contains index = true
      · have hgi2 : deltas2.get? index = some dl :=
          (hrel.2 index hin).trans hgi
        have hown2 := combine_own_delta_ok hgi2 h1 h2 h3 h4 h5
        simp only [include_validator_delta, hin, if_true, hsrc, ok_bind,
          htgt, hhd, hip, hown2]
        exact route_proposer_subset (subset_agree_set_both hrel index _) hstep
      · have hnin : s.contains index = false := by simpa using hin
        simp only [include_validator_delta, hnin, Bool.false_eq_true,
          if_false, ok_bind]
        exact route_proposer_subset (subset_agree_set_left hrel hnin _) hstep

/-- Simulation of the whole loop. -/
theorem loop_subset_rel (f : Nat → Except Error Nat) (spec : ChainSpec)
    (total_balances : TotalBalances) (finality_delay : Nat)
    (proposer_reward : ProposerRewardCalculation) (s : List Nat) :
    ∀ (vs : List ValidatorStatus) (i : Nat) (D D2 R : List AttestationDelta),
    subset_agree s D D2 →
    get_attestation_deltas_loop f spec total_balances finality_delay
      proposer_reward none vs i D = .ok R →
    ∃ R2, get_attestation_deltas_loop f spec total_balances finality_delay
      proposer_reward (some s) vs i D2 = .ok R2 ∧ subset_agree s R R2 := by
  intro vs
  induction vs with
  | nil =>
      intro i D D2 R hrel h
      simp only [get_attestation_deltas_loop] at h ⊢
      exact ⟨D2, rfl, (Except.ok.inj h) ▸ hrel⟩
  | cons v rest ih =>
      intro i D D2 R hrel h
      simp only [get_attestation_deltas_loop] at h ⊢
      rcases hstep : get_attestation_deltas_step f spec total_balances
          finality_delay proposer_reward none D i v with e | E
      · simp only [hstep, error_bind] at h
        exact Except.noConfusion h
      simp only [hstep, ok_bind] at h
      obtain ⟨E2, hstep2, hrelE⟩ := step_subset_rel f spec total_balances
        finality_delay proposer_reward s D D2 E i v hrel hstep
      simp only [hstep2, ok_bind]
      exact ih (i + 1) E E2 R hrelE h

/-- Tables agreeing on the subset have equal subset-filtered enumerations. -/
theorem enumFrom_filter_subset_eq (s : List Nat) :
    ∀ (D : List AttestationDelta) (k : Nat) (D2 : List AttestationDelta),
    D.length = D2.length →
    (∀ j, s.contains (k + j) = true → D2.get? j = D.get? j) →
    (D2.enumFrom k).filter (fun p => s.contains p.1) =
      (D.enumFrom k).filter (fun p => s.contains p.1) := by
  intro D
  induction D with
  | nil =>
      intro k D2 hlen hag
      have : D2 = [] := List.length_eq_zero.mp (by simpa using hlen.symm)
      subst this
      rfl
  | cons a tl ih =>
      intro k D2 hlen hag
      cases D2 with
      | nil => simp at hlen
      | cons a2 tl2 =>
          have hlen2 : tl.length = tl2.length := by simpa using hlen
          have htl : (tl2.enumFrom (k + 1)).filter
                (fun p => s.contains p.1) =
              (tl.enumFrom (k + 1)).filter (fun p => s.contains p.1) := by
            apply ih (k + 1) tl2 hlen2
            intro j hj
            have hidx : k + 1 + j = k + (j + 1) := by omega
            have := hag (j + 1) (by rw [← hidx]; exact hj)
            simpa using this
          by_cases hk : s.contains k = true
          · have ha : a2 = a := by
              have := hag 0 (by simpa using hk)
              simpa using this
            subst ha
            simp only [List.enumFrom, List.filter_cons, hk, if_true, htl]
          · have hk2 : s.contains k = false := by simpa using hk
            simp only [List.enumFrom, List.filter_cons, hk2,
              Bool.false_eq_true, if_false, htl]

/-- C4: whenever the full computation succeeds with delta sequence `D`, the
subset query returns exactly the (index, delta) pairs of `D` at the in-range
indices of the requested subset, in ascending index order — each returned
delta equal in all five fields to the corresponding entry of `D`, proposer
credits from attesters outside the subset included, because the full
validator set is traversed internally before filtering. -/
theorem c4_subset_refines_all (f : Nat → Except Error Nat)
    (state : BeaconState) (validator_statuses : ValidatorStatuses)
    (proposer_reward : ProposerRewardCalculation) (spec : ChainSpec)
    (validators_subset : List Nat) (D : List AttestationDelta)
    (h : get_attestation_deltas_all f state validator_statuses
      proposer_reward spec = .ok D) :
    get_attestation_deltas_subset f state validator_statuses proposer_reward
      validators_subset spec =
      .ok (D.enum.filter (fun p => validators_subset.contains p.1)) := by
  unfold get_attestation_deltas_all get_attestation_deltas at h
  unfold get_attestation_deltas_subset get_attestation_deltas
  rcases hfd : safe_sub state.previous_epoch state.finalized_checkpoint_epoch
      with e | fd
  · simp only [hfd, error_bind] at h
    exact Except.noConfusion h
  simp only [hfd, ok_bind] at h ⊢
  obtain ⟨R2, hloop2, hrel⟩ := loop_subset_rel f spec
    validator_statuses.total_balances fd proposer_reward validators_subset
    validator_statuses.statuses 0
    (List.replicate state.validators_len AttestationDelta.default)
    (List.replicate state.validators_len AttestationDelta.default) D
    (subset_agree_refl _ _) h
  rw [hloop2]
  simp only [Except.map]
  have := enumFrom_filter_subset_eq validators_subset D 0 R2 hrel.1
    (fun j hj => hrel.2 j (by simpa using hj))
  simpa [List.enum] using this

/-- C4 witness: on a three-validator state where only validator 0 attests
(with proposer 2), requesting the subset `[2]` yields exactly the pair for
index 2 of the full computation — including the 125-gwei proposer credit
that originates from attester 0, which is outside the subset. -/
theorem c4_subset_refines_all_witness :
    get_attestation_deltas_subset (fun _ => .ok 1000) ⟨1, 0, 0, 3, [0, 0, 0]⟩
      ⟨[⟨true, false, true, true, true, 32000000000, some ⟨1, 2⟩⟩,
        ⟨false, false, false, false, false, 32000000000, none⟩,
        ⟨true, false, false, false, false, 32000000000, none⟩],
        ⟨96000000000, 32000000000, 32000000000, 32000000000⟩⟩
      .Include [2] ⟨4, 1000000000, 4, 8, 67108864⟩
      = .ok [(2, ⟨⟨0, 1000⟩, ⟨0, 1000⟩, ⟨0, 1000⟩, ⟨125, 0⟩, ⟨0, 0⟩⟩)] :=
  (c4_subset_refines_all (fun _ => .ok 1000) ⟨1, 0, 0, 3, [0, 0, 0]⟩
    ⟨[⟨true, false, true, true, true, 32000000000, some ⟨1, 2⟩⟩,
      ⟨false, false, false, false, false, 32000000000, none⟩,
      ⟨true, false, false, false, false, 32000000000, none⟩],
      ⟨96000000000, 32000000000, 32000000000, 32000000000⟩⟩
    .Include ⟨4, 1000000000, 4, 8, 67108864⟩ [2]
    [⟨⟨333, 0⟩, ⟨333, 0⟩, ⟨333, 0⟩, ⟨875, 0⟩, ⟨0, 0⟩⟩,
      AttestationDelta.default,
      ⟨⟨0, 1000⟩, ⟨0, 1000⟩, ⟨0, 1000⟩, ⟨125, 0⟩, ⟨0, 0⟩⟩]
    (by decide)).trans (by decide)

/-! ## C8 -/

/-- C8 counterexample: validator 1 has `is_eligible = false`, yet — because
attester 0 records it as proposer — its `AttestationDelta` carries a nonzero
`inclusion_delay_delta` of 125 gwei and `process_rewards_and_penalties`
raises its balance from 0 to 125: the engine skips an ineligible validator's
own computation, but its delta and balance are not always untouched. -/
theorem c8_counterexample :
    (⟨false, false, false, false, false, 32000000000, none⟩ :
      ValidatorStatus).is_eligible = false
    ∧ get_attestation_deltas_all (fun _ => .ok 1000) ⟨1, 0, 0, 2, [0, 0]⟩
        ⟨[⟨true, false, true, true, true, 32000000000, some ⟨1, 1⟩⟩,
          ⟨false, false, false, false, false, 32000000000, none⟩],
          ⟨96000000000, 32000000000, 32000000000, 32000000000⟩⟩
        .Include ⟨4, 1000000000, 4, 8, 67108864⟩
      = .ok [⟨⟨333, 0⟩, ⟨333, 0⟩, ⟨333, 0⟩, ⟨875, 0⟩, ⟨0, 0⟩⟩,
          ⟨⟨0, 0⟩, ⟨0, 0⟩, ⟨0, 0⟩, ⟨125, 0⟩, ⟨0, 0⟩⟩]
    ∧ (⟨⟨0, 0⟩, ⟨0, 0⟩, ⟨0, 0⟩, ⟨125, 0⟩, ⟨0, 0⟩⟩ : AttestationDelta)
      ≠ AttestationDelta.default
    ∧ process_rewards_and_penalties (fun _ => .ok 1000) ⟨1, 0, 0, 2, [0, 0]⟩
        ⟨[⟨true, false, true, true, true, 32000000000, some ⟨1, 1⟩⟩,
          ⟨false, false, false, false, false, 32000000000, none⟩],
          ⟨96000000000, 32000000000, 32000000000, 32000000000⟩⟩
        ⟨4, 1000000000, 4, 8, 67108864⟩
      = .ok ⟨1, 0, 0, 2, [1874, 125]⟩ := by
  refine ⟨rfl, by decide, by decide, by decide⟩

/-- A proposer credit in the output of `get_inclusion_delay_delta` always
carries the proposer index recorded in the validator's inclusion info. -/
theorem inclusion_delay_delta_proposer_inv {validator : ValidatorStatus}
    {base_reward : Nat} {spec : ChainSpec} {dl pd : Delta} {q : Nat}
    (h : get_inclusion_delay_delta validator base_reward spec =
      .ok (dl, some (q, pd))) :
    ∃ dd, validator.inclusion_info = some ⟨dd, q⟩ := by
  by_cases hb : (validator.is_previous_epoch_attester && !validator.is_slashed)
      = true
  · simp only [get_inclusion_delay_delta, hb, if_true] at h
    rcases hinc : validator.inclusion_info with _ | info
    · simp only [hinc] at h
      exact Except.noConfusion h
    simp only [hinc] at h
    rcases hq : get_proposer_reward base_reward spec with e | pr
    · simp only [hq, error_bind] at h
      exact Except.noConfusion h
    simp only [hq, ok_bind] at h
    rcases hr1 : Delta.default.reward pr with e | pdelta
    · simp only [hr1, error_bind] at h
      exact Except.noConfusion h
    simp only [hr1, ok_bind] at h
    rcases hr2 : safe_sub base_reward pr with e | mar
    · simp only [hr2, error_bind] at h
      exact Except.noConfusion h
    simp only [hr2, ok_bind] at h
    rcases hr3 : safe_div mar info.delay with e | ar
    · simp only [hr3, error_bind] at h
      exact Except.noConfusion h
    simp only [hr3, ok_bind] at h
    rcases hr4 : Delta.default.reward ar with e | adelta
    · simp only [hr4, error_bind] at h
      exact Except.noConfusion h
    simp only [hr4, ok_bind] at h
    have hpair := Except.ok.inj h
    have hq2 : info.proposer_index = q := by
      have := congrArg Prod.snd hpair
      simp only at this
      exact (Prod.mk.injEq _ _ _ _).mp (Option.some.inj this) |>.1
    subst hq2
    exact ⟨info.delay, rfl⟩
  · simp only [get_inclusion_delay_delta, hb, Bool.false_eq_true, if_false]
      at h
    have := congrArg Prod.snd (Except.ok.inj h)
    simp only at this
    exact Option.noConfusion this

/-- Proposer-credit routing leaves every index other than the credited
proposer untouched. -/
theorem route_proposer_preserves_get? {pr : ProposerRewardCalculation}
    {sub : Option (List Nat)} {pd : Option (Nat × Delta)}
    {D E : List AttestationDelta} (i : Nat)
    (h : route_proposer_delta pr sub pd D = .ok E)
    (hqi : ∀ q pdd, pd = some (q, pdd) → q ≠ i) :
    E.get? i = D.get? i := by
  cases pr with
  | Exclude => rw [← Except.ok.inj h]
  | Include =>
    cases pd with
    | none => rw [← Except.ok.inj h]
    | some qpd =>
        obtain ⟨q, pdd⟩ := qpd
        by_cases hin : include_validator_delta sub q = true
        · simp only [route_proposer_delta, hin, if_true] at h
          rcases hq : D.get? q with _ | dq
          · simp only [hq] at h
            exact Except.noConfusion h
          simp only [hq] at h
          rcases hc : dq.inclusion_delay_delta.combine pdd with e | idd
          · simp only [hc, error_bind] at h
            exact Except.noConfusion h
          simp only [hc, ok_bind] at h
          rw [← Except.ok.inj h, List.get?_set_ne _ _ (hqi q pdd rfl)]
        · have hnin : include_validator_delta sub q = false := by
            simpa using hin
          simp only [route_proposer_delta, hnin, Bool.false_eq_true, if_false]
            at h
          rw [← Except.ok.inj h]

/-- One loop step leaves index `i` untouched when the processed validator
neither sits at `i` (if eligible) nor routes a proposer credit to `i`. -/
theorem step_preserves_get? {f : Nat → Except Error Nat} {spec : ChainSpec}
    {total_balances : TotalBalances} {finality_delay : Nat}
    {pr : ProposerRewardCalculation} {sub : Option (List Nat)}
    {deltas E : List AttestationDelta} {k : Nat} {v : ValidatorStatus}
    (i : Nat)
    (hstep : get_attestation_deltas_step f spec total_balances finality_delay
      pr sub deltas k v = .ok E)
    (hown : v.is_eligible = true → k ≠ i)
    (hprop : ∀ dd q, v.inclusion_info = some ⟨dd, q⟩ → q ≠ i) :
    E.get? i = deltas.get? i := by
  cases heli : v.is_eligible with
  | false =>
      simp only [get_attestation_deltas_step, heli, Bool.not_false, if_true]
        at hstep
      rw [← Except.ok.inj hstep]
  | true =>
      have hki : k ≠ i := hown heli
      simp only [get_attestation_deltas_step, heli, Bool.not_true,
        Bool.false_eq_true, if_false] at hstep
      rcases hbase : f v.current_epoch_effective_balance with e | base_reward
      · simp only [hbase, error_bind] at hstep
        exact Except.noConfusion hstep
      simp only [hbase, ok_bind] at hstep
      rcases hpair : get_inclusion_delay_delta v base_reward spec
          with e | pair
      · simp only [hpair, error_bind] at hstep
        exact Except.noConfusion hstep
      simp only [hpair, ok_bind] at hstep
      have hqi : ∀ q pdd, pair.2 = some (q, pdd) → q ≠ i := by
        intro q pdd hp2
        obtain ⟨p1, p2⟩ := pair
        simp only at hp2
        subst hp2
        obtain ⟨dd, hdd⟩ := inclusion_delay_delta_proposer_inv hpair
        exact hprop dd q hdd
      by_cases hin : include_validator_delta sub k = true
      · simp only [hin, if_true] at hstep
        rcases hsrc : get_source_delta v base_reward total_balances
            finality_delay spec with e | source_delta
        · simp only [hsrc, error_bind] at hstep
          exact Except.noConfusion hstep
        simp only [hsrc, ok_bind] at hstep
        rcases htgt : get_target_delta v base_reward total_balances
            finality_delay spec with e | target_delta
        · simp only [htgt, error_bind] at hstep
          exact Except.noConfusion hstep
        simp only [htgt, ok_bind] at hstep
        rcases hhd : get_head_delta v base_reward total_balances
            finality_delay spec with e | head_delta
        · simp only [hhd, error_bind] at hstep
          exact Except.noConfusion hstep
        simp only [hhd, ok_bind] at hstep
        rcases hip : get_inactivity_penalty_delta v base_reward finality_delay
            spec with e | inactivity_penalty_delta
        · simp only [hip, error_bind] at hstep
          exact Except.noConfusion hstep
        simp only [hip, ok_bind] at hstep
        rcases hown2 : combine_own_delta deltas k source_delta target_delta
            head_delta pair.1 inactivity_penalty_delta with e | D1
        · simp only [hown2, error_bind] at hstep
          exact Except.noConfusion hstep
        simp only [hown2, ok_bind] at hstep
        obtain ⟨dl, sd, td, hd, idd, ipd, hgi, h1, h2, h3, h4, h5, hD1⟩ :=
          combine_own_delta_ok_inv hown2
        subst hD1
        rw [route_proposer_preserves_get? i hstep hqi,
          List.get?_set_ne _ _ hki]
      · have hnin : include_validator_delta sub k = false := by simpa using hin
        simp only [hnin, Bool.false_eq_true, if_false, ok_bind] at hstep
        exact route_proposer_preserves_get? i hstep hqi

/-- The whole loop leaves index `i` untouched when no processed validator
sits at `i` (if eligible) and none routes a proposer credit to `i`. -/
theorem loop_preserves_get? (f : Nat → Except Error Nat) (spec : ChainSpec)
    (total_balances : TotalBalances) (finality_delay : Nat)
    (pr : ProposerRewardCalculation) (sub : Option (List Nat)) (i : Nat) :
    ∀ (vs : List ValidatorStatus) (k : Nat) (D R : List AttestationDelta),
    (∀ off v, vs.get? off = some v →
      (v.is_eligible = true → k + off ≠ i) ∧
      (∀ dd q, v.inclusion_info = some ⟨dd, q⟩ → q ≠ i)) →
    get_attestation_deltas_loop f spec total_balances finality_delay pr sub
      vs k D = .ok R → R.get? i = D.get? i := by
  intro vs
  induction vs with
  | nil =>
      intro k D R hv h
      simp only [get_attestation_deltas_loop] at h
      rw [← Except.ok.inj h]
  | cons v rest ih =>
      intro k D R hv h
      simp only [get_attestation_deltas_loop] at h
      rcases hstep : get_attestation_deltas_step f spec total_balances
          finality_delay pr sub D k v with e | E
      · simp only [hstep, error_bind] at h
        exact Except.noConfusion h
      simp only [hstep, ok_bind] at h
      have hv0 := hv 0 v rfl
      have hE : E.get? i = D.get? i :=
        step_preserves_get? i hstep (fun he => by simpa using hv0.1 he) hv0.2
      rw [ih (k + 1) E R (fun off w hw => by
        have := hv (off + 1) w (by simpa using hw)
        refine ⟨fun he hne => ?_, this.2⟩
        exact this.1 he (by omega)) h, hE]

/-- The balance-application loop leaves index `i` untouched when the delta
at `i` (if any) is the all-zero record. -/
theorem apply_loop_preserves_get? (i : Nat) :
    ∀ (ds : List AttestationDelta) (k : Nat) (bal bal2 : List Nat),
    (∀ off d, ds.get? off = some d → k + off = i →
      d = AttestationDelta.default) →
    apply_deltas_loop ds k bal = .ok bal2 → bal2.get? i = bal.get? i := by
  intro ds
  induction ds with
  | nil =>
      intro k bal bal2 hd h
      simp only [apply_deltas_loop] at h
      rw [← Except.ok.inj h]
  | cons d rest ih =>
      intro k bal bal2 hd h
      simp only [apply_deltas_loop] at h
      rcases hflat : d.flatten with e | c
      · simp only [hflat, error_bind] at h
        exact Except.noConfusion h
      simp only [hflat, ok_bind] at h
      rcases hinc : increase_balance bal k c.rewards with e | b1
      · simp only [hinc, error_bind] at h
        exact Except.noConfusion h
      simp only [hinc, ok_bind] at h
      rcases hdec : decrease_balance b1 k c.penalties with e | b2
      · simp only [hdec, error_bind] at h
        exact Except.noConfusion h
      simp only [hdec, ok_bind] at h
      have hrest : bal2.get? i = b2.get? i :=
        ih (k + 1) b2 bal2 (fun off w hw hke => by
          exact hd (off + 1) w (by simpa using hw) (by omega)) h
      by_cases hki : k = i
      · subst hki
        have hdef : d = AttestationDelta.default := hd 0 d rfl (by omega)
        subst hdef
        have hc : c = ⟨0, 0⟩ := by
          have : AttestationDelta.default.flatten = .ok ⟨0, 0⟩ := by decide
          rw [this] at hflat
          exact (Except.ok.inj hflat).symm
        subst hc
        rcases hb : bal.get? k with _ | b
        · simp only [increase_balance, hb] at hinc
          exact Except.noConfusion hinc
        simp only [increase_balance, hb] at hinc
        rcases hsa : safe_add b 0 with e | nb
        · simp only [hsa, error_bind] at hinc
          exact Except.noConfusion hinc
        simp only [hsa, ok_bind] at hinc
        have hnb : nb = b := by
          unfold safe_add at hsa
          split_ifs at hsa with hlt
          have := Except.ok.inj hsa
          omega
        have hb1 : b1.get? k = some b := by
          rw [← Except.ok.inj hinc, hnb,
            List.get?_set_eq_of_lt _ (lt_length_of_get? hb)]
        simp only [decrease_balance, hb1] at hdec
        have hb2 : b2.get? k = some b := by
          rw [← Except.ok.inj hdec, Nat.sub_zero,
            List.get?_set_eq_of_lt _ (lt_length_of_get? hb1)]
        rw [hrest, hb2]
      · have hb1 : b1.get? i = bal.get? i := by
          rcases hb : bal.get? k with _ | b
          · simp only [increase_balance, hb] at hinc
            exact Except.noConfusion hinc
          simp only [increase_balance, hb] at hinc
          rcases hsa : safe_add b c.rewards with e | nb
          · simp only [hsa, error_bind] at hinc
            exact Except.noConfusion hinc
          simp only [hsa, ok_bind] at hinc
          rw [← Except.ok.inj hinc, List.get?_set_ne _ _ hki]
        have hb2 : b2.get? i = b1.get? i := by
          rcases hb : b1.get? k with _ | b
          · simp only [decrease_balance, hb] at hdec
            exact Except.noConfusion hdec
          simp only [decrease_balance, hb] at hdec
          rw [← Except.ok.inj hdec, List.get?_set_ne _ _ hki]
        rw [hrest, hb2, hb1]

/-- C8 (amended): a validator with `is_eligible = false` is skipped entirely
by the loop step (no base reward computed, the table returned unchanged);
and provided no status's inclusion info names it as proposer — so no
proposer credit is routed to it — its `AttestationDelta` stays the all-zero
record, that record flattens to zero, and its balance is unchanged by
`process_rewards_and_penalties`. -/
theorem c8_ineligible_skipped (f : Nat → Except Error Nat)
    (state : BeaconState) (validator_statuses : ValidatorStatuses)
    (spec : ChainSpec) (pr : ProposerRewardCalculation)
    (sub : Option (List Nat)) (i : Nat) (v : ValidatorStatus)
    (hv : validator_statuses.statuses.get? i = some v)
    (heli : v.is_eligible = false)
    (hnoprop : ∀ j w, validator_statuses.statuses.get? j = some w →
      ∀ dd q, w.inclusion_info = some ⟨dd, q⟩ → q ≠ i) :
    (∀ (total_balances : TotalBalances) (finality_delay : Nat)
      (D : List AttestationDelta) (k : Nat),
      get_attestation_deltas_step f spec total_balances finality_delay pr sub
        D k v = .ok D)
    ∧ (∀ D, get_attestation_deltas f state validator_statuses pr sub spec
        = .ok D →
      D.get? i =
        (List.replicate state.validators_len AttestationDelta.default).get? i)
    ∧ (∀ state2,
        process_rewards_and_penalties f state validator_statuses spec
          = .ok state2 →
        state2.balances.get? i = state.balances.get? i)
    ∧ AttestationDelta.default.flatten = .ok ⟨0, 0⟩ := by
  have hloop : ∀ (pr2 : ProposerRewardCalculation)
      (sub2 : Option (List Nat)) (D : List AttestationDelta),
      get_attestation_deltas f state validator_statuses pr2 sub2 spec
        = .ok D →
      D.get? i = (List.replicate state.validators_len
        AttestationDelta.default).get? i := by
    intro pr2 sub2 D h
    unfold get_attestation_deltas at h
    rcases hfd : safe_sub state.previous_epoch
        state.finalized_checkpoint_epoch with e | fd
    · simp only [hfd, error_bind] at h
      exact Except.noConfusion h
    simp only [hfd, ok_bind] at h
    exact loop_preserves_get? f spec validator_statuses.total_balances fd
      pr2 sub2 i validator_statuses.statuses 0 _ D
      (fun off w hw => by
        refine ⟨fun he hoff => ?_, hnoprop off w hw⟩
        have hoi : off = i := by omega
        subst hoi
        rw [hv] at hw
        have hwv := Option.some.inj hw
        subst hwv
        rw [heli] at he
        exact Bool.noConfusion he) h
  refine ⟨?_, hloop pr sub, ?_, by decide⟩
  · intro total_balances finality_delay D k
    simp [get_attestation_deltas_step, heli]
  · intro state2 h
    unfold process_rewards_and_penalties at h
    by_cases hg : state.current_epoch = genesis_epoch
    · rw [if_pos hg] at h
      rw [← Except.ok.inj h]
    · rw [if_neg hg] at h
      by_cases hl : validator_statuses.statuses.length ≠
          state.balances.length ∨
          validator_statuses.statuses.length ≠ state.validators_len
      · rw [if_pos hl] at h
        exact Except.noConfusion h
      · rw [if_neg hl] at h
        rcases hall : get_attestation_deltas_all f state validator_statuses
            .Include spec with e | D
        · simp only [hall, error_bind] at h
          exact Except.noConfusion h
        simp only [hall, ok_bind] at h
        rcases happly : apply_deltas_loop D 0 state.balances with e | bal2
        · simp only [happly, error_bind] at h
          exact Except.noConfusion h
        simp only [happly, ok_bind] at h
        have hD := hloop .Include none D hall
        have hbal : bal2.get? i = state.balances.get? i := by
          apply apply_loop_preserves_get? i D 0 state.balances bal2 ?_ happly
          intro off d hoff hoi
          have hoi2 : off = i := by omega
          subst hoi2
          rw [hD] at hoff
          exact List.eq_of_mem_replicate (List.get?_mem hoff)
        rw [← Except.ok.inj h]
        exact hbal

/-- C8 witness: on the three-validator state where validator 1 is ineligible
and nobody names it as proposer, the loop step leaves the table unchanged,
validator 1's delta stays the default record, and its balance is untouched
by `process_rewards_and_penalties`. -/
theorem c8_ineligible_skipped_witness :
    get_attestation_deltas_step (fun _ => .ok 1000)
      ⟨4, 1000000000, 4, 8, 67108864⟩
      ⟨96000000000, 32000000000, 32000000000, 32000000000⟩ 0 .Include none
      (List.replicate 3 AttestationDelta.default) 1
      ⟨false, false, false, false, false, 32000000000, none⟩
      = .ok (List.replicate 3 AttestationDelta.default)
    ∧ ([⟨⟨333, 0⟩, ⟨333, 0⟩, ⟨333, 0⟩, ⟨875, 0⟩, ⟨0, 0⟩⟩,
        AttestationDelta.default,
        ⟨⟨0, 1000⟩, ⟨0, 1000⟩, ⟨0, 1000⟩, ⟨125, 0⟩, ⟨0, 0⟩⟩] :
          List AttestationDelta).get? 1 =
        (List.replicate 3 AttestationDelta.default).get? 1
    ∧ (⟨1, 0, 0, 3, [1874, 0, 0]⟩ : BeaconState).balances.get? 1 =
        (⟨1, 0, 0, 3, [0, 0, 0]⟩ : BeaconState).balances.get? 1 := by
  have h := c8_ineligible_skipped (fun _ => .ok 1000) ⟨1, 0, 0, 3, [0, 0, 0]⟩
    ⟨[⟨true, false, true, true, true, 32000000000, some ⟨1, 2⟩⟩,
      ⟨false, false, false, false, false, 32000000000, none⟩,
      ⟨true, false, false, false, false, 32000000000, none⟩],
      ⟨96000000000, 32000000000, 32000000000, 32000000000⟩⟩
    ⟨4, 1000000000, 4, 8, 67108864⟩ .Include none 1
    ⟨false, false, false, false, false, 32000000000, none⟩ rfl rfl
    (by
      intro j w hw dd q hq
      have hj : j < 3 := lt_length_of_get? hw
      interval_cases j <;>
        simp only [List.get?] at hw <;>
        rw [← Option.some.inj hw] at hq <;>
        simp only at hq <;>
        first
          | exact Option.noConfusion hq
          | (rw [← (InclusionInfo.mk.injEq _ _ _ _).mp
              (Option.some.inj hq) |>.2]; decide))
  exact ⟨h.1 ⟨96000000000, 32000000000, 32000000000, 32000000000⟩ 0
      (List.replicate 3 AttestationDelta.default) 1,
    h.2.1 [⟨⟨333, 0⟩, ⟨333, 0⟩, ⟨333, 0⟩, ⟨875, 0⟩, ⟨0, 0⟩⟩,
      AttestationDelta.default,
      ⟨⟨0, 1000⟩, ⟨0, 1000⟩, ⟨0, 1000⟩, ⟨125, 0⟩, ⟨0, 0⟩⟩] (by decide),
    h.2.2.1 ⟨1, 0, 0, 3, [1874, 0, 0]⟩ (by decide)⟩

end LighthouseRewards
